import Mathlib

/-!
Verification development for the local persistence and data-export layer of
the novel-companion application (src/lib/database.ts, src/types/novel.ts and
the import boundary in src/components/ExportImportDialog.tsx).

The IndexedDB-backed storage engine is modelled as a pure state type `Store`
holding the five collections (novels, characters, places, notes, images) as
lists of records.  Engine primitives (`get`, `put`, `delete`, `clear`,
`getAllFromIndex`) become pure list operations; the repository operations of
database.ts are translated statement by statement on top of them.  Wall-clock
reads (`Date.now`) and generated ids become explicit parameters, and the raw
JavaScript behaviour of `importAll` on unvalidated documents is modelled with
optional fields plus an explicit error result.
-/

/-- Tags drawn from the fixed enumeration in src/types/novel.ts. -/
inductive CharacterTag where
  | mc
  | villain
  | ally
  | mentor
  | loveInterest
  | side
  | custom
deriving DecidableEq, Repr

/-- Novel record, after src/types/novel.ts. -/
structure Novel where
  id : String
  title : String
  author : Option String := none
  coverImage : Option String := none
  createdAt : Nat
  updatedAt : Nat
deriving DecidableEq, Repr

/-- Character record, after src/types/novel.ts. -/
structure Character where
  id : String
  novelId : String
  name : String
  description : String
  images : List String
  tags : List CharacterTag
  linkedCharacterIds : List String
  linkedPlaceIds : List String
  createdAt : Nat
  updatedAt : Nat
deriving DecidableEq, Repr

/-- Place record, after src/types/novel.ts. -/
structure Place where
  id : String
  novelId : String
  name : String
  description : String
  images : List String
  linkedCharacterIds : List String
  createdAt : Nat
  updatedAt : Nat
deriving DecidableEq, Repr

/-- Note record, after src/types/novel.ts. -/
structure Note where
  id : String
  novelId : String
  title : String
  content : String
  linkedCharacterIds : List String
  linkedPlaceIds : List String
  createdAt : Nat
  updatedAt : Nat
deriving DecidableEq, Repr

/-- Image record: the images object store holds values of shape
`\x7b id, data \x7d` (database.ts, schema). -/
structure ImageRecord where
  id : String
  data : String
deriving DecidableEq, Repr

/-- The five object stores of the novel-companion database. -/
structure Store where
  novels : List Novel
  characters : List Character
  places : List Place
  notes : List Note
  images : List ImageRecord
deriving DecidableEq, Repr

/-- The freshly created (empty) database state. -/
def emptyStore : Store := ⟨[], [], [], [], []⟩

/-! ### Generic engine primitives

Each object store keys its records by the `id` field (keyPath `id`).  `findBy`
models `db.get`, `putBy` models `db.put` (insert or overwrite by id), and
`deleteBy` models `db.delete` (remove by key, no-op if absent). -/

/-- Engine `get`: the record whose key equals `i`, if any. -/
def findBy {V : Type} (key : V → String) (l : List V) (i : String) : Option V :=
  l.find? (fun v => key v == i)

/-- Engine `put`: insert or overwrite the record at its own key. -/
def putBy {V : Type} (key : V → String) : List V → V → List V
  | [], v => [v]
  | w :: t, v => if key v == key w then v :: t else w :: putBy key t v

/-- Engine `delete`: remove the record at key `j` (no-op when absent). -/
def deleteBy {V : Type} (key : V → String) (l : List V) (j : String) : List V :=
  l.filter (fun v => !(key v == j))

/-- Engine `getAllFromIndex` on a by-novel index: the records whose `novelId`
equals the requested key, in storage order. -/
def byNovel {V : Type} (novelIdOf : V → String) (l : List V) (nid : String) : List V :=
  l.filter (fun v => novelIdOf v == nid)

/-- Insert a record into a list ascending by the `updatedAt` projection. -/
def insertByUpdated {V : Type} (upd : V → Nat) (v : V) : List V → List V
  | [] => [v]
  | w :: t => if upd v ≤ upd w then v :: w :: t else w :: insertByUpdated upd v t

/-- Engine `getAllFromIndex` on a by-updated index: the records sorted
ascending by `updatedAt`. -/
def sortByUpdated {V : Type} (upd : V → Nat) : List V → List V
  | [] => []
  | v :: t => insertByUpdated upd v (sortByUpdated upd t)

/-! ### Repository operations (src/lib/database.ts)

`Date.now()` readings and generated ids are passed in as explicit
parameters; everything else is translated statement by statement. -/

/-- Well-formed store: within each collection the record ids are pairwise
distinct (guaranteed in the real engine by keying each store on `id`). -/
def WF (s : Store) : Prop :=
  (s.novels.map Novel.id).Nodup ∧ (s.characters.map Character.id).Nodup ∧
    (s.places.map Place.id).Nodup ∧ (s.notes.map Note.id).Nodup ∧
    (s.images.map ImageRecord.id).Nodup

instance (s : Store) : Decidable (WF s) := by
  unfold WF; infer_instance

/-- novelDB.getAll: all novels via the by-updated index (ascending). -/
def novelDB_getAll (s : Store) : List Novel :=
  sortByUpdated Novel.updatedAt s.novels

/-- novelDB.get. -/
def novelDB_get (s : Store) (id : String) : Option Novel :=
  findBy Novel.id s.novels id

/-- The create payload of novelDB.create: a Novel minus id and timestamps. -/
structure NovelFields where
  title : String
  author : Option String := none
  coverImage : Option String := none
deriving DecidableEq, Repr

/-- novelDB.create: assigns the generated id and createdAt = updatedAt = now,
persists, and returns the new record. -/
def novelDB_create (f : NovelFields) (newId : String) (now : Nat) (s : Store) :
    Novel × Store :=
  let newNovel : Novel :=
    { id := newId, title := f.title, author := f.author,
      coverImage := f.coverImage, createdAt := now, updatedAt := now }
  (newNovel, { s with novels := putBy Novel.id s.novels newNovel })

/-- The per-character step of the cascade in novelDB.delete: delete the
character record, then every image it lists. -/
def novelDeleteCharStep (acc : Store) (ch : Character) : Store :=
  { acc with
    characters := deleteBy Character.id acc.characters ch.id,
    images := ch.images.foldl (fun im g => deleteBy ImageRecord.id im g) acc.images }

/-- The per-place step of the cascade in novelDB.delete: delete the place
record, then every image it lists. -/
def novelDeletePlaceStep (acc : Store) (pl : Place) : Store :=
  { acc with
    places := deleteBy Place.id acc.places pl.id,
    images := pl.images.foldl (fun im g => deleteBy ImageRecord.id im g) acc.images }

/-- The per-note step of the cascade in novelDB.delete. -/
def novelDeleteNoteStep (acc : Store) (nt : Note) : Store :=
  { acc with notes := deleteBy Note.id acc.notes nt.id }

/-- novelDB.delete: fetch the dependent characters, places and notes of the
novel (by-novel index), then in one readwrite transaction delete each
character with the images it lists, each place with the images it lists,
each note, and finally the novel itself. -/
def novelDB_delete (s : Store) (id : String) : Store :=
  let characters := byNovel Character.novelId s.characters id
  let places := byNovel Place.novelId s.places id
  let notes := byNovel Note.novelId s.notes id
  let s1 := characters.foldl novelDeleteCharStep s
  let s2 := places.foldl novelDeletePlaceStep s1
  let s3 := notes.foldl novelDeleteNoteStep s2
  { s3 with novels := deleteBy Novel.id s3.novels id }

/-- characterDB.getByNovel: the by-novel index for the requested novel. -/
def characterDB_getByNovel (s : Store) (novelId : String) : List Character :=
  byNovel Character.novelId s.characters novelId

/-- characterDB.get. -/
def characterDB_get (s : Store) (id : String) : Option Character :=
  findBy Character.id s.characters id

/-- The partial payload of characterDB.update: every Character field is
optional, mirroring Partial of the Character type. -/
structure CharacterPatch where
  id : Option String := none
  novelId : Option String := none
  name : Option String := none
  description : Option String := none
  images : Option (List String) := none
  tags : Option (List CharacterTag) := none
  linkedCharacterIds : Option (List String) := none
  linkedPlaceIds : Option (List String) := none
  createdAt : Option Nat := none
  updatedAt : Option Nat := none
deriving DecidableEq, Repr

/-- characterDB.update: spread the existing record, then the payload over it,
then force id to the requested id and updatedAt to now, persist, and return
the updated record.  A field present in the payload (including createdAt)
overrides the stored field; id and updatedAt are forced afterward. -/
def characterDB_update (s : Store) (id : String) (data : CharacterPatch)
    (now : Nat) : Option Character × Store :=
  match findBy Character.id s.characters id with
  | none => (none, s)
  | some existing =>
    let updated : Character :=
      { id := id,
        novelId := data.novelId.getD existing.novelId,
        name := data.name.getD existing.name,
        description := data.description.getD existing.description,
        images := data.images.getD existing.images,
        tags := data.tags.getD existing.tags,
        linkedCharacterIds := data.linkedCharacterIds.getD existing.linkedCharacterIds,
        linkedPlaceIds := data.linkedPlaceIds.getD existing.linkedPlaceIds,
        createdAt := data.createdAt.getD existing.createdAt,
        updatedAt := now }
    (some updated, { s with characters := putBy Character.id s.characters updated })

/-- One step of the cross-reference cleanup loop in characterDB.delete: if the
scanned character links the deleted id, persist it with the id filtered out
of linkedCharacterIds and a refreshed updatedAt. -/
def cleanupStep (deletedId : String) (now : Nat) (chars : List Character)
    (ch : Character) : List Character :=
  if deletedId ∈ ch.linkedCharacterIds then
    putBy Character.id chars
      { ch with
        linkedCharacterIds := ch.linkedCharacterIds.filter (fun cid => !(cid == deletedId)),
        updatedAt := now }
  else chars

/-- characterDB.delete: return unchanged if the character is absent;
otherwise delete the images it lists and the character record in one
transaction, then (as a separate pass) scan the characters of the same novel
and strip the deleted id from any linkedCharacterIds containing it,
refreshing updatedAt on each rewritten record. -/
def characterDB_delete (s : Store) (id : String) (now : Nat) : Store :=
  match findBy Character.id s.characters id with
  | none => s
  | some character =>
    let s1 : Store :=
      { s with
        images := character.images.foldl
          (fun im g => deleteBy ImageRecord.id im g) s.images,
        characters := deleteBy Character.id s.characters id }
    let allChars := byNovel Character.novelId s1.characters character.novelId
    { s1 with characters := allChars.foldl (cleanupStep id now) s1.characters }

/-- placeDB.getByNovel. -/
def placeDB_getByNovel (s : Store) (novelId : String) : List Place :=
  byNovel Place.novelId s.places novelId

/-- noteDB.getByNovel. -/
def noteDB_getByNovel (s : Store) (novelId : String) : List Note :=
  byNovel Note.novelId s.notes novelId

/-- imageDB.get: the data of the stored image record, if any. -/
def imageDB_get (s : Store) (id : String) : Option String :=
  (findBy ImageRecord.id s.images id).map ImageRecord.data

/-! ### Export and import (dataExport of src/lib/database.ts) -/

/-- The Backup Document produced by exportAll, after the ExportData interface
of src/types/novel.ts; the image map is an id-to-data association list. -/
structure ExportData where
  version : String
  exportedAt : Nat
  novels : List Novel
  characters : List Character
  places : List Place
  notes : List Note
  images : List (String × String)
deriving DecidableEq, Repr

/-- The coverImage id a novel contributes to the referenced-image set:
`n.coverImage && imageIds.add(n.coverImage)` adds it only when truthy, so a
missing or empty-string coverImage contributes nothing. -/
def coverImageRef (n : Novel) : Option String :=
  match n.coverImage with
  | none => none
  | some c => if c = "" then none else some c

/-- The referenced-image id set collected by exportAll: every entry of every
character images list, every entry of every place images list, and every
truthy novel coverImage, deduplicated. -/
def collectImageIds (s : Store) : List String :=
  (s.characters.flatMap Character.images ++ s.places.flatMap Place.images ++
    s.novels.filterMap coverImageRef).dedup

/-- One entry of the exported image map: the export fetches each referenced
id and stores it under `if (data) images[id] = data`, so the entry is
included only when the fetched data is truthy — a missing record and an
empty-string data are both silently omitted. -/
def exportImageEntry (s : Store) (i : String) : Option (String × String) :=
  match imageDB_get s i with
  | none => none
  | some d => if d = "" then none else some (i, d)

/-- dataExport.exportAll: read the four entity collections in full, collect
the referenced image ids, fetch each referenced image and silently omit ids
whose data is not truthy, and produce the versioned document. -/
def dataExport_exportAll (s : Store) (now : Nat) : ExportData :=
  { version := "1.0",
    exportedAt := now,
    novels := s.novels,
    characters := s.characters,
    places := s.places,
    notes := s.notes,
    images := (collectImageIds s).filterMap (exportImageEntry s) }

/-- Import mode: overwrite clears all five collections first, merge does not. -/
inductive ImportMode where
  | overwrite
  | merge
deriving DecidableEq, Repr

/-- An unvalidated backup document as parsed from JSON: version and the
novels array may be absent. -/
structure RawBackup where
  version : Option String := none
  exportedAt : Option Nat := none
  novels : Option (List Novel) := none
  characters : List Character := []
  places : List Place := []
  notes : List Note := []
  images : List (String × String) := []
deriving DecidableEq, Repr

/-- The raw document a typed ExportData value presents at runtime. -/
def rawOfExport (d : ExportData) : RawBackup :=
  { version := some d.version, exportedAt := some d.exportedAt,
    novels := some d.novels, characters := d.characters,
    places := d.places, notes := d.notes, images := d.images }

/-- dataExport.importAll, at JavaScript runtime semantics on a possibly
malformed document: in overwrite mode clear all five stores, then put every
image entry, then iterate the novels array — when the document has no novels
field this iteration throws a TypeError, after the clears and the image
writes have already happened — then put every character, place and note.
The result pairs the store as left by the call with the raised error, if
any. -/
def dataExport_importAll (d : RawBackup) (mode : ImportMode) (s : Store) :
    Store × Option String :=
  let s0 := match mode with
    | ImportMode.overwrite => emptyStore
    | ImportMode.merge => s
  let s1 := { s0 with
    images := d.images.foldl
      (fun acc p => putBy ImageRecord.id acc ⟨p.1, p.2⟩) s0.images }
  match d.novels with
  | none => (s1, some "TypeError: data.novels is not iterable")
  | some ns =>
    let s2 := { s1 with novels := ns.foldl (putBy Novel.id) s1.novels }
    let s3 := { s2 with characters := d.characters.foldl (putBy Character.id) s2.characters }
    let s4 := { s3 with places := d.places.foldl (putBy Place.id) s3.places }
    let s5 := { s4 with notes := d.notes.foldl (putBy Note.id) s4.notes }
    (s5, none)

/-- JavaScript truthiness of the optional version string: absent and the
empty string are falsy. -/
def strTruthy : Option String → Bool
  | none => false
  | some s => !(s == "")

/-- The import boundary (handleImport in ExportImportDialog.tsx): reject the
parsed document before any write when version or novels is falsy, raising
the invalid-backup error with the store untouched; otherwise run
dataExport.importAll on it.  The dialog always passes overwrite; the mode is
kept as a parameter. -/
def handleImport (d : RawBackup) (mode : ImportMode) (s : Store) :
    Store × Option String :=
  if !(strTruthy d.version) || d.novels.isNone then
    (s, some "Invalid backup file")
  else dataExport_importAll d mode s

/-! ### Engine-call trace of novelDB.delete

Claim C3 also speaks about which calls happen inside the readwrite
transaction, so the sequence of engine calls novelDB.delete issues is
modelled explicitly alongside its state effect. -/

/-- One engine call issued by a repository operation. -/
inductive DBOp where
  | getAllFromIndex (store index key : String)
  | txBegin (stores : List String)
  | txDelete (store key : String)
  | txCommit
deriving DecidableEq, Repr

/-- The three dependent-record fetches novelDB.delete performs, before it
opens its transaction. -/
def novelDeleteFetchOps (id : String) : List DBOp :=
  [DBOp.getAllFromIndex "characters" "by-novel" id,
   DBOp.getAllFromIndex "places" "by-novel" id,
   DBOp.getAllFromIndex "notes" "by-novel" id]

/-- The deletions novelDB.delete issues inside its transaction: each
dependent character followed by the images it lists, each dependent place
followed by the images it lists, each dependent note, then the novel. -/
def novelDeleteDeleteOps (s : Store) (id : String) : List DBOp :=
  (byNovel Character.novelId s.characters id).flatMap
      (fun ch => DBOp.txDelete "characters" ch.id :: ch.images.map (DBOp.txDelete "images")) ++
    (byNovel Place.novelId s.places id).flatMap
      (fun pl => DBOp.txDelete "places" pl.id :: pl.images.map (DBOp.txDelete "images")) ++
    (byNovel Note.novelId s.notes id).map (fun nt => DBOp.txDelete "notes" nt.id) ++
    [DBOp.txDelete "novels" id]

/-- The engine calls issued by novelDB.delete, in source order: the three
by-novel fetches, then the transaction over the five stores containing all
the deletions. -/
def novelDB_delete_trace (s : Store) (id : String) : List DBOp :=
  novelDeleteFetchOps id ++
    DBOp.txBegin ["novels", "characters", "places", "notes", "images"] ::
      (novelDeleteDeleteOps s id ++ [DBOp.txCommit])

/-- An op is a dependent-record fetch. -/
def isFetch : DBOp → Bool
  | DBOp.getAllFromIndex _ _ _ => true
  | _ => false

/-- An op is a keyed delete inside a transaction. -/
def isTxDelete : DBOp → Bool
  | DBOp.txDelete _ _ => true
  | _ => false

/-- Scans a trace and checks that every fetch op occurs strictly between a
txBegin and the matching txCommit. -/
def fetchesWithinTxAux : Bool → List DBOp → Bool
  | _, [] => true
  | _, DBOp.txBegin _ :: t => fetchesWithinTxAux true t
  | _, DBOp.txCommit :: t => fetchesWithinTxAux false t
  | inTx, DBOp.getAllFromIndex _ _ _ :: t => inTx && fetchesWithinTxAux inTx t
  | inTx, DBOp.txDelete _ _ :: t => fetchesWithinTxAux inTx t

/-- Every fetch in the trace happens within a transaction. -/
def fetchesWithinTx (tr : List DBOp) : Bool :=
  fetchesWithinTxAux false tr

/-! ### Concrete fixtures used by witnesses and counterexamples -/

/-- Build a character record from the fields the claims vary. -/
def mkCharacter (id novelId : String) (imgs links : List String)
    (cAt uAt : Nat) : Character :=
  { id := id, novelId := novelId, name := id, description := "",
    images := imgs, tags := [], linkedCharacterIds := links,
    linkedPlaceIds := [], createdAt := cAt, updatedAt := uAt }

/-- Build a place record from the fields the claims vary. -/
def mkPlace (id novelId : String) (imgs : List String) (uAt : Nat) : Place :=
  { id := id, novelId := novelId, name := id, description := "",
    images := imgs, linkedCharacterIds := [], createdAt := uAt, updatedAt := uAt }

/-- Build a note record from the fields the claims vary. -/
def mkNote (id novelId : String) (uAt : Nat) : Note :=
  { id := id, novelId := novelId, title := id, content := "",
    linkedCharacterIds := [], linkedPlaceIds := [], createdAt := uAt, updatedAt := uAt }

/-- Build a novel record from the fields the claims vary. -/
def mkNovel (id : String) (cover : Option String) (uAt : Nat) : Novel :=
  { id := id, title := id, author := none, coverImage := cover,
    createdAt := uAt, updatedAt := uAt }

/-- Build an image record with fixed data. -/
def mkImage (id : String) : ImageRecord := ⟨id, "blob"⟩

/-- A populated store: novel n1 with a cover image, two linked characters
(one holding an image), a place with an image, a note, and a second novel
with its own character. -/
def sampleStore : Store :=
  { novels := [mkNovel "n1" (some "i0") 1, mkNovel "n2" none 2],
    characters :=
      [mkCharacter "c1" "n1" ["i1"] ["c2"] 1 3,
       mkCharacter "c2" "n1" [] ["c1"] 1 4,
       mkCharacter "c3" "n2" [] ["c1"] 1 5],
    places := [mkPlace "p1" "n1" ["i2"] 2],
    notes := [mkNote "t1" "n1" 2],
    images := [mkImage "i0", mkImage "i1", mkImage "i2"] }

/-- Two same-novel characters whose updatedAt order is the reverse of their
id order. -/
def reversedUpdatedStore : Store :=
  { novels := [], places := [], notes := [], images := [],
    characters :=
      [mkCharacter "a" "n1" [] [] 0 5, mkCharacter "b" "n1" [] [] 0 3] }

/-- A character that lists an image id with no stored image record. -/
def danglingImageStore : Store :=
  { novels := [], places := [], notes := [], images := [],
    characters := [mkCharacter "c" "n" ["x"] [] 0 0] }

/-- A character that lists an image id whose stored record holds
empty-string data. -/
def emptyDataImageStore : Store :=
  { novels := [], places := [], notes := [], images := [⟨"x", ""⟩],
    characters := [mkCharacter "c" "n" ["x"] [] 0 0] }

/-- A raw backup document lacking the version field. -/
def noVersionDoc : RawBackup := { novels := some [] }

/-- A raw backup document lacking the novels field. -/
def noNovelsDoc : RawBackup := { version := some "1.0" }

/-- A valid document carrying a novel colliding with a pre-existing id and a
novel with a fresh id. -/
def mergeDoc : ExportData :=
  { version := "1.0", exportedAt := 0,
    novels := [mkNovel "a" none 9, mkNovel "b" none 9],
    characters := [], places := [], notes := [], images := [] }

/-- A pre-existing store holding a different record at the colliding id and
an untouched record of its own. -/
def mergePreStore : Store :=
  { novels := [mkNovel "a" none 1, mkNovel "c" none 1],
    characters := [], places := [], notes := [], images := [] }

/-! ### Lookup lemmas for the engine primitives -/

theorem findBy_nil {V : Type} (key : V → String) (i : String) :
    findBy key [] i = none := rfl

theorem findBy_cons {V : Type} (key : V → String) (w : V) (t : List V) (i : String) :
    findBy key (w :: t) i = if key w = i then some w else findBy key t i := by
  by_cases h : key w = i
  · simp [findBy, List.find?, h]
  · have hb : (key w == i) = false := beq_eq_false_iff_ne.mpr h
    simp [findBy, List.find?, hb, h]

theorem deleteBy_nil {V : Type} (key : V → String) (j : String) :
    deleteBy key [] j = [] := rfl

theorem deleteBy_cons {V : Type} (key : V → String) (w : V) (t : List V) (j : String) :
    deleteBy key (w :: t) j =
      if key w = j then deleteBy key t j else w :: deleteBy key t j := by
  by_cases h : key w = j
  · simp [deleteBy, List.filter, h]
  · have hb : (key w == j) = false := beq_eq_false_iff_ne.mpr h
    simp [deleteBy, List.filter, hb, h]

theorem putBy_cons {V : Type} (key : V → String) (w : V) (t : List V) (v : V) :
    putBy key (w :: t) v =
      if key v = key w then v :: t else w :: putBy key t v := by
  by_cases h : key v = key w
  · simp [putBy, h]
  · have hb : (key v == key w) = false := beq_eq_false_iff_ne.mpr h
    simp [putBy, hb, h]

theorem findBy_putBy {V : Type} (key : V → String) (l : List V) (v : V) (i : String) :
    findBy key (putBy key l v) i = if key v = i then some v else findBy key l i := by
  induction l with
  | nil =>
    by_cases h : key v = i <;> simp [putBy, findBy_cons, findBy_nil, h]
  | cons w t ih =>
    rw [putBy_cons]
    by_cases hw : key v = key w
    · rw [if_pos hw, findBy_cons, findBy_cons]
      by_cases h : key v = i
      · simp [h]
      · have hwi : ¬ key w = i := fun hc => h (hw.trans hc)
        simp [h, hwi]
    · rw [if_neg hw, findBy_cons, findBy_cons]
      by_cases hwi : key w = i
      · have h : ¬ key v = i := fun hc => hw (hc.trans hwi.symm)
        simp [h, hwi]
      · simp only [hwi, if_false]
        exact ih

theorem findBy_deleteBy {V : Type} (key : V → String) (l : List V) (j i : String) :
    findBy key (deleteBy key l j) i = if i = j then none else findBy key l i := by
  induction l with
  | nil => by_cases h : i = j <;> simp [deleteBy_nil, findBy_nil, h]
  | cons w t ih =>
    rw [deleteBy_cons]
    by_cases hw : key w = j
    · rw [if_pos hw, findBy_cons]
      by_cases hij : i = j
      · simpa [hij] using ih
      · have hwi : ¬ key w = i := fun hc => hij (hc.symm.trans hw)
        simp only [hwi, if_false, hij, if_false] at ih ⊢
        simpa [hij] using ih
    · rw [if_neg hw, findBy_cons, findBy_cons]
      by_cases hwi : key w = i
      · have hij : ¬ i = j := fun hc => hw (hwi.symm ▸ hc)
        simp [hwi, hij]
      · simp only [hwi, if_false]
        exact ih

theorem mem_byNovel {V : Type} (novelIdOf : V → String) (l : List V) (nid : String)
    (v : V) : v ∈ byNovel novelIdOf l nid ↔ v ∈ l ∧ novelIdOf v = nid := by
  simp [byNovel, List.mem_filter]

theorem mem_insertByUpdated {V : Type} (upd : V → Nat) (v x : V) (l : List V) :
    x ∈ insertByUpdated upd v l ↔ x = v ∨ x ∈ l := by
  induction l with
  | nil => simp [insertByUpdated]
  | cons w t ih =>
    by_cases h : upd v ≤ upd w
    · simp [insertByUpdated, h]
    · simp only [insertByUpdated, h, if_false, List.mem_cons, ih]
      tauto

theorem pairwise_insertByUpdated {V : Type} (upd : V → Nat) (v : V) (l : List V)
    (hl : List.Pairwise (fun a b => upd a ≤ upd b) l) :
    List.Pairwise (fun a b => upd a ≤ upd b) (insertByUpdated upd v l) := by
  induction l with
  | nil => simp [insertByUpdated]
  | cons w t ih =>
    rcases List.pairwise_cons.mp hl with ⟨hw, ht⟩
    by_cases h : upd v ≤ upd w
    · simp only [insertByUpdated, h, if_true]
      refine List.pairwise_cons.mpr ⟨?_, hl⟩
      intro x hx
      rcases List.mem_cons.mp hx with hx | hx
      · exact hx ▸ h
      · exact le_trans h (hw x hx)
    · simp only [insertByUpdated, h, if_false]
      refine List.pairwise_cons.mpr ⟨?_, ih ht⟩
      intro x hx
      rcases (mem_insertByUpdated upd v x t).mp hx with hx | hx
      · exact hx ▸ le_of_not_le h
      · exact hw x hx

theorem pairwise_sortByUpdated {V : Type} (upd : V → Nat) (l : List V) :
    List.Pairwise (fun a b => upd a ≤ upd b) (sortByUpdated upd l) := by
  induction l with
  | nil => simp [sortByUpdated]
  | cons v t ih => exact pairwise_insertByUpdated upd v _ ih

/-- Looking a key up after a sequence of puts with pairwise-distinct keys:
the put record wins over the base list. -/
theorem findBy_foldl_putBy {V : Type} (key : V → String) (ds : List V)
    (hnd : (ds.map key).Nodup) (base : List V) (i : String) :
    findBy key (ds.foldl (putBy key) base) i =
      match ds.find? (fun v => key v == i) with
      | some v => some v
      | none => findBy key base i := by
  induction ds generalizing base with
  | nil => rfl
  | cons v t ih =>
    have hnd' : (t.map key).Nodup := (List.nodup_cons.mp (by simpa using hnd)).2
    have hvt : key v ∉ t.map key := (List.nodup_cons.mp (by simpa using hnd)).1
    simp only [List.foldl_cons]
    rw [ih hnd']
    by_cases h : key v = i
    · have hfind : t.find? (fun w => key w == i) = none := by
        rw [List.find?_eq_none]
        intro x hx hbx
        exact hvt (h ▸ (by simpa using hbx) ▸ List.mem_map_of_mem key hx)
      rw [hfind]
      simp [List.find?, h, findBy_putBy]
    · have hb : (key v == i) = false := beq_eq_false_iff_ne.mpr h
      simp only [List.find?, hb]
      cases hf : t.find? (fun w => key w == i) with
      | some w => rfl
      | none => rw [findBy_putBy, if_neg h]

/-- Looking a key up after a sequence of deletes: a deleted key is gone, any
other key is untouched. -/
theorem findBy_foldl_deleteBy {V W : Type} (key : V → String) (f : W → String)
    (ds : List W) (base : List V) (i : String) :
    findBy key (ds.foldl (fun acc x => deleteBy key acc (f x)) base) i =
      if i ∈ ds.map f then none else findBy key base i := by
  induction ds generalizing base with
  | nil => simp
  | cons x t ih =>
    simp only [List.foldl_cons]
    rw [ih]
    by_cases hmem : i ∈ t.map f
    · simp [hmem]
    · rw [if_neg hmem, findBy_deleteBy]
      by_cases hx : i = f x
      · simp [hx]
      · simp [hx, hmem]

/-- In a list whose keys are pairwise distinct, a member record is what
findBy returns at its key. -/
theorem findBy_eq_of_mem_nodup {V : Type} (key : V → String) (l : List V)
    (hnd : (l.map key).Nodup) (v : V) (hv : v ∈ l) :
    findBy key l (key v) = some v := by
  induction l with
  | nil => cases hv
  | cons w t ih =>
    rcases List.mem_cons.mp hv with hv | hv
    · subst hv; simp [findBy_cons]
    · have hnd' : (t.map key).Nodup := (List.nodup_cons.mp (by simpa using hnd)).2
      have hw : key w ∉ t.map key := (List.nodup_cons.mp (by simpa using hnd)).1
      have hne : ¬ key w = key v := fun hc => hw (hc ▸ List.mem_map_of_mem key hv)
      rw [findBy_cons, if_neg hne]
      exact ih hnd' hv

/-- A findBy hit is a member of the list with the looked-up key. -/
theorem findBy_mem {V : Type} (key : V → String) (l : List V) (i : String)
    (v : V) (h : findBy key l i = some v) : v ∈ l ∧ key v = i := by
  refine ⟨List.mem_of_find?_eq_some h, ?_⟩
  have := List.find?_some h
  simpa using this

/-- Filtering preserves distinctness of keys. -/
theorem nodup_map_key_filter {V : Type} (key : V → String) (p : V → Bool)
    (l : List V) (h : (l.map key).Nodup) : ((l.filter p).map key).Nodup :=
  h.sublist (List.Sublist.map key (List.filter_sublist l))

/-- The character phase of novelDB.delete leaves novels, places and notes
untouched. -/
theorem charPhase_frame (cs : List Character) (acc : Store) :
    (cs.foldl novelDeleteCharStep acc).novels = acc.novels ∧
      (cs.foldl novelDeleteCharStep acc).places = acc.places ∧
      (cs.foldl novelDeleteCharStep acc).notes = acc.notes := by
  induction cs generalizing acc with
  | nil => exact ⟨rfl, rfl, rfl⟩
  | cons c t ih => simpa [novelDeleteCharStep] using ih (novelDeleteCharStep acc c)

/-- The character phase deletes exactly the listed character keys from the
characters collection. -/
theorem charPhase_characters (cs : List Character) (acc : Store) :
    (cs.foldl novelDeleteCharStep acc).characters =
      cs.foldl (fun l ch => deleteBy Character.id l ch.id) acc.characters := by
  induction cs generalizing acc with
  | nil => rfl
  | cons c t ih => simpa [novelDeleteCharStep] using ih (novelDeleteCharStep acc c)

/-- The character phase deletes exactly the flattened image lists from the
images collection. -/
theorem charPhase_images (cs : List Character) (acc : Store) :
    (cs.foldl novelDeleteCharStep acc).images =
      (cs.flatMap Character.images).foldl
        (fun im g => deleteBy ImageRecord.id im g) acc.images := by
  induction cs generalizing acc with
  | nil => rfl
  | cons c t ih =>
    simp only [List.foldl_cons, List.flatMap_cons, List.foldl_append]
    simpa [novelDeleteCharStep] using ih (novelDeleteCharStep acc c)

/-- The place phase of novelDB.delete leaves novels, characters and notes
untouched. -/
theorem placePhase_frame (ps : List Place) (acc : Store) :
    (ps.foldl novelDeletePlaceStep acc).novels = acc.novels ∧
      (ps.foldl novelDeletePlaceStep acc).characters = acc.characters ∧
      (ps.foldl novelDeletePlaceStep acc).notes = acc.notes := by
  induction ps generalizing acc with
  | nil => exact ⟨rfl, rfl, rfl⟩
  | cons c t ih => simpa [novelDeletePlaceStep] using ih (novelDeletePlaceStep acc c)

/-- The place phase deletes exactly the listed place keys. -/
theorem placePhase_places (ps : List Place) (acc : Store) :
    (ps.foldl novelDeletePlaceStep acc).places =
      ps.foldl (fun l pl => deleteBy Place.id l pl.id) acc.places := by
  induction ps generalizing acc with
  | nil => rfl
  | cons c t ih => simpa [novelDeletePlaceStep] using ih (novelDeletePlaceStep acc c)

/-- The place phase deletes exactly the flattened image lists. -/
theorem placePhase_images (ps : List Place) (acc : Store) :
    (ps.foldl novelDeletePlaceStep acc).images =
      (ps.flatMap Place.images).foldl
        (fun im g => deleteBy ImageRecord.id im g) acc.images := by
  induction ps generalizing acc with
  | nil => rfl
  | cons c t ih =>
    simp only [List.foldl_cons, List.flatMap_cons, List.foldl_append]
    simpa [novelDeletePlaceStep] using ih (novelDeletePlaceStep acc c)

/-- The note phase of novelDB.delete touches only the notes collection. -/
theorem notePhase_frame (ns : List Note) (acc : Store) :
    (ns.foldl novelDeleteNoteStep acc).novels = acc.novels ∧
      (ns.foldl novelDeleteNoteStep acc).characters = acc.characters ∧
      (ns.foldl novelDeleteNoteStep acc).places = acc.places ∧
      (ns.foldl novelDeleteNoteStep acc).images = acc.images := by
  induction ns generalizing acc with
  | nil => exact ⟨rfl, rfl, rfl, rfl⟩
  | cons c t ih => simpa [novelDeleteNoteStep] using ih (novelDeleteNoteStep acc c)

/-- The note phase deletes exactly the listed note keys. -/
theorem notePhase_notes (ns : List Note) (acc : Store) :
    (ns.foldl novelDeleteNoteStep acc).notes =
      ns.foldl (fun l nt => deleteBy Note.id l nt.id) acc.notes := by
  induction ns generalizing acc with
  | nil => rfl
  | cons c t ih => simpa [novelDeleteNoteStep] using ih (novelDeleteNoteStep acc c)

/-- The record the cleanup loop would persist for a scanned character. -/
def cleanupModified (deletedId : String) (now : Nat) (ch : Character) : Character :=
  { ch with
    linkedCharacterIds := ch.linkedCharacterIds.filter (fun cid => !(cid == deletedId)),
    updatedAt := now }

/-- Characterization of the cleanup loop of characterDB.delete: provided the
scanned characters have pairwise-distinct ids, a key resolves to the
rewritten record when its character was scanned and linked the deleted id,
and to whatever the base collection held otherwise. -/
theorem findBy_foldl_cleanup (deletedId : String) (now : Nat)
    (allChars : List Character) (hnd : (allChars.map Character.id).Nodup)
    (chars : List Character) (i : String) :
    findBy Character.id (allChars.foldl (cleanupStep deletedId now) chars) i =
      match allChars.find? (fun ch => ch.id == i) with
      | some ch =>
        if deletedId ∈ ch.linkedCharacterIds then some (cleanupModified deletedId now ch)
        else findBy Character.id chars i
      | none => findBy Character.id chars i := by
  induction allChars generalizing chars with
  | nil => rfl
  | cons ch t ih =>
    have hnd' : (t.map Character.id).Nodup := (List.nodup_cons.mp (by simpa using hnd)).2
    have hct : ch.id ∉ t.map Character.id := (List.nodup_cons.mp (by simpa using hnd)).1
    simp only [List.foldl_cons]
    rw [ih hnd']
    by_cases hi : ch.id = i
    · have hfind : t.find? (fun w => w.id == i) = none := by
        rw [List.find?_eq_none]
        intro x hx hbx
        exact hct (hi ▸ (by simpa using hbx) ▸ List.mem_map_of_mem Character.id hx)
      rw [hfind]
      simp only [List.find?, beq_iff_eq, hi, if_pos rfl]
      by_cases hlink : deletedId ∈ ch.linkedCharacterIds
      · simp only [cleanupStep, hlink, if_true]
        rw [findBy_putBy]
        have hid : (cleanupModified deletedId now ch).id = i := hi
        simp [cleanupModified] at hid
        simp [cleanupModified, hid, hlink]
      · simp [cleanupStep, hlink, hi]
    · have hb : (ch.id == i) = false := beq_eq_false_iff_ne.mpr hi
      simp only [List.find?, hb]
      have hstep : findBy Character.id (cleanupStep deletedId now chars ch) i =
          findBy Character.id chars i := by
        by_cases hlink : deletedId ∈ ch.linkedCharacterIds
        · simp only [cleanupStep, hlink, if_true]
          rw [findBy_putBy]
          have hid : ¬ (cleanupModified deletedId now ch).id = i := hi
          simp only [cleanupModified] at hid
          simp [cleanupModified, hid]
        · simp [cleanupStep, hlink]
      cases hf : t.find? (fun w => w.id == i) with
      | some w => simp [hstep]
      | none => simp [hstep]

/-! ### Claim C2 — invalid backup rejected -/

/-- Claim C2 counterexample: dataExport.importAll itself performs no
validation.  On a document lacking the version field it completes without
raising any error, and on a document lacking the novels field in overwrite
mode it raises only after clearing the collections, so the novels collection
is not left as it was. -/
theorem C2_counterexample :
    (dataExport_importAll noVersionDoc ImportMode.merge emptyStore).2 = none ∧
      (dataExport_importAll noNovelsDoc ImportMode.overwrite sampleStore).1.novels = [] ∧
      sampleStore.novels ≠ [] ∧
      (dataExport_importAll noNovelsDoc ImportMode.overwrite sampleStore).2 ≠ none := by
  decide

/-- Claim C2 (amended): the validation lives at the import boundary
(handleImport), not inside dataExport.importAll.  For every document lacking
version or lacking novels, the boundary raises the invalid-backup error
before calling importAll, so no write happens and all five collections are
exactly as before, in both overwrite and merge mode. -/
theorem C2_invalid_backup_rejected (d : RawBackup) (mode : ImportMode)
    (s : Store) (h : d.version = none ∨ d.novels = none) :
    handleImport d mode s = (s, some "Invalid backup file") := by
  rcases h with h | h
  · simp [handleImport, h, strTruthy]
  · simp [handleImport, h]

/-- Witness for C2: the rejection at a concrete document and store. -/
theorem C2_invalid_backup_rejected_witness :
    handleImport noVersionDoc ImportMode.overwrite sampleStore =
      (sampleStore, some "Invalid backup file") :=
  C2_invalid_backup_rejected noVersionDoc ImportMode.overwrite sampleStore
    (Or.inl rfl)

/-! ### Claim C5 — timestamp discipline -/

/-- Claim C5 counterexample: update does not leave createdAt unchanged when
the payload itself contains a createdAt field — the payload value overrides
the stored one (spread order in characterDB.update). -/
theorem C5_counterexample :
    (findBy Character.id sampleStore.characters "c1").map Character.createdAt =
        some 1 ∧
      ((characterDB_update sampleStore "c1" { createdAt := some 999 } 10).1.map
        Character.createdAt) = some 999 := by
  decide

/-- Claim C5 (amended): create returns a record with createdAt equal to
updatedAt; update sets updatedAt to the call time, leaves createdAt
unchanged provided the payload does not itself contain a createdAt field
(a payload createdAt overrides it), and strictly increases updatedAt
whenever the call time is later than the stored updatedAt. -/
theorem C5_timestamps :
    (∀ (f : NovelFields) (newId : String) (now : Nat) (s : Store),
        (novelDB_create f newId now s).1.createdAt =
          (novelDB_create f newId now s).1.updatedAt) ∧
      ∀ (s : Store) (id : String) (p : CharacterPatch) (now : Nat)
        (ex u : Character),
        findBy Character.id s.characters id = some ex →
        (characterDB_update s id p now).1 = some u →
        u.updatedAt = now ∧ (p.createdAt = none → u.createdAt = ex.createdAt) ∧
          (ex.updatedAt < now → ex.updatedAt < u.updatedAt) := by
  constructor
  · intro f newId now s
    rfl
  · intro s id p now ex u hex hu
    simp only [characterDB_update, hex] at hu
    have hu' := hu.symm
    injection hu' with h
    subst h
    refine ⟨rfl, ?_, ?_⟩
    · intro hc
      simp [hc]
    · intro hlt
      simpa using hlt

/-- Witness for C5: an empty-payload update of a concrete character keeps
createdAt, stamps updatedAt with the call time and strictly increases it. -/
theorem C5_timestamps_witness :
    ({ mkCharacter "c1" "n1" ["i1"] ["c2"] 1 3 with updatedAt := 10 } :
        Character).updatedAt = 10 ∧
      ({ mkCharacter "c1" "n1" ["i1"] ["c2"] 1 3 with updatedAt := 10 } :
          Character).createdAt = (mkCharacter "c1" "n1" ["i1"] ["c2"] 1 3).createdAt ∧
      (mkCharacter "c1" "n1" ["i1"] ["c2"] 1 3).updatedAt <
        ({ mkCharacter "c1" "n1" ["i1"] ["c2"] 1 3 with updatedAt := 10 } :
          Character).updatedAt := by
  have h := C5_timestamps.2 sampleStore "c1" {} 10
    (mkCharacter "c1" "n1" ["i1"] ["c2"] 1 3)
    ({ mkCharacter "c1" "n1" ["i1"] ["c2"] 1 3 with updatedAt := 10 })
    (by decide) (by decide)
  exact ⟨h.1, h.2.1 rfl, h.2.2 (by decide)⟩

/-! ### Claim C6 — list ordering -/

/-- Claim C6 counterexample: characterDB.getByNovel reads the by-novel
index, which yields primary-key order, not updatedAt order — on a store
whose id order reverses the updatedAt order the result is not ascending by
updatedAt. -/
theorem C6_counterexample :
    ¬ List.Pairwise (fun a b => a.updatedAt ≤ b.updatedAt)
        (characterDB_getByNovel reversedUpdatedStore "n1") := by
  decide

/-- Claim C6 (amended): novelDB.getAll (the by-updated index) returns novels
sorted ascending by updatedAt; the getByNovel readers use the by-novel
index and return the records of the novel in primary-key (id) order — sorted
by id whenever the collection is in its key order — not by updatedAt. -/
theorem C6_list_ordering :
    (∀ s : Store,
        List.Pairwise (fun a b => a.updatedAt ≤ b.updatedAt) (novelDB_getAll s)) ∧
      (∀ (s : Store) (nid : String),
        List.Pairwise (fun a b => a.id.data < b.id.data) s.characters →
        List.Pairwise (fun a b => a.id.data < b.id.data)
          (characterDB_getByNovel s nid)) ∧
      (∀ (s : Store) (nid : String),
        List.Pairwise (fun a b => a.id.data < b.id.data) s.places →
        List.Pairwise (fun a b => a.id.data < b.id.data) (placeDB_getByNovel s nid)) ∧
      (∀ (s : Store) (nid : String),
        List.Pairwise (fun a b => a.id.data < b.id.data) s.notes →
        List.Pairwise (fun a b => a.id.data < b.id.data) (noteDB_getByNovel s nid)) := by
  refine ⟨fun s => pairwise_sortByUpdated _ _, ?_, ?_, ?_⟩
  · intro s nid h
    exact List.Pairwise.sublist (List.filter_sublist _) h
  · intro s nid h
    exact List.Pairwise.sublist (List.filter_sublist _) h
  · intro s nid h
    exact List.Pairwise.sublist (List.filter_sublist _) h

/-- Witness for C6: the id-order component at a concrete id-sorted store. -/
theorem C6_list_ordering_witness :
    List.Pairwise (fun a b => a.id.data < b.id.data)
      (characterDB_getByNovel reversedUpdatedStore "n1") :=
  C6_list_ordering.2.1 reversedUpdatedStore "n1" (by decide)

/-! ### Claim C8 — export image-map exactness -/

/-- Membership in the referenced-image id set collected by exportAll. -/
theorem mem_collectImageIds (s : Store) (i : String) :
    i ∈ collectImageIds s ↔
      (∃ c ∈ s.characters, i ∈ c.images) ∨ (∃ p ∈ s.places, i ∈ p.images) ∨
        ∃ n ∈ s.novels, coverImageRef n = some i := by
  simp [collectImageIds, List.mem_dedup, List.mem_append, List.mem_flatMap,
    List.mem_filterMap]

/-- Claim C8 counterexample: a character references image id x, but the
export omits it from the image map — both when no image record with that id
is stored and when the stored record holds empty-string (falsy) data — so
the key set is not the full union of referenced ids. -/
theorem C8_counterexample :
    "x" ∈ danglingImageStore.characters.flatMap Character.images ∧
      (dataExport_exportAll danglingImageStore 0).images.map Prod.fst = [] ∧
      "x" ∈ emptyDataImageStore.characters.flatMap Character.images ∧
      (dataExport_exportAll emptyDataImageStore 0).images.map Prod.fst = [] := by
  decide

/-- Claim C8 (amended): the key set of the exported image map is exactly the
referenced ids — character images entries, place images entries, and truthy
(present and non-empty) novel coverImage values — whose fetched image data
is truthy, that is, an image record exists and its data is non-empty;
referenced ids whose data is missing or empty are silently omitted. -/
theorem C8_export_image_keys (s : Store) (now : Nat) (i : String) :
    i ∈ (dataExport_exportAll s now).images.map Prod.fst ↔
      ((∃ c ∈ s.characters, i ∈ c.images) ∨ (∃ p ∈ s.places, i ∈ p.images) ∨
        ∃ n ∈ s.novels, coverImageRef n = some i) ∧
        strTruthy (imageDB_get s i) = true := by
  rw [← mem_collectImageIds]
  simp only [dataExport_exportAll]
  constructor
  · intro h
    rcases List.mem_map.mp h with ⟨pr, hpr, hfst⟩
    rcases List.mem_filterMap.mp hpr with ⟨j, hj, hf⟩
    cases hg : imageDB_get s j with
    | none => simp [exportImageEntry, hg] at hf
    | some d =>
      by_cases hd : d = ""
      · simp [exportImageEntry, hg, hd] at hf
      · have hpr' : pr = (j, d) := by
          simpa [exportImageEntry, hg, hd] using hf.symm
        have hij : j = i := by rw [hpr'] at hfst; simpa using hfst
        subst hij
        exact ⟨hj, by simp [strTruthy, hg, hd]⟩
  · rintro ⟨href, htr⟩
    cases hg : imageDB_get s i with
    | none => rw [hg] at htr; simp [strTruthy] at htr
    | some d =>
      rw [hg] at htr
      have hd : ¬ d = "" := by simpa [strTruthy] using htr
      refine List.mem_map.mpr ⟨(i, d), List.mem_filterMap.mpr ⟨i, href, ?_⟩, rfl⟩
      simp [exportImageEntry, hg, hd]

/-- Witness for C8: a concrete referenced image id with truthy stored data
is a key of the exported image map. -/
theorem C8_export_image_keys_witness :
    "i1" ∈ (dataExport_exportAll sampleStore 0).images.map Prod.fst :=
  (C8_export_image_keys sampleStore 0 "i1").mpr (by decide)

/-! ### Claim C1 — export/import round-trip -/

/-- Importing a key-distinct record list into a cleared collection is lookup
equivalent to the list itself. -/
theorem findBy_foldl_putBy_fresh {V : Type} (key : V → String) (ds : List V)
    (hnd : (ds.map key).Nodup) (i : String) :
    findBy key (ds.foldl (putBy key) []) i = findBy key ds i := by
  rw [findBy_foldl_putBy key ds hnd]
  cases hf : ds.find? (fun v => key v == i) <;> simp [findBy, hf]

/-- The image loop of importAll, as a lookup: with pairwise-distinct keys the
put image entry wins over the base collection. -/
theorem findBy_foldl_putBy_pairs (ps : List (String × String))
    (hnd : (ps.map Prod.fst).Nodup) (base : List ImageRecord) (i : String) :
    findBy ImageRecord.id
        (ps.foldl (fun acc p => putBy ImageRecord.id acc ⟨p.1, p.2⟩) base) i =
      match ps.find? (fun p => p.1 == i) with
      | some p => some ⟨p.1, p.2⟩
      | none => findBy ImageRecord.id base i := by
  have hfold : ps.foldl (fun acc p => putBy ImageRecord.id acc ⟨p.1, p.2⟩) base =
      (ps.map (fun p => (⟨p.1, p.2⟩ : ImageRecord))).foldl (putBy ImageRecord.id) base := by
    rw [List.foldl_map]
  have hmapnd : ((ps.map (fun p => (⟨p.1, p.2⟩ : ImageRecord))).map ImageRecord.id).Nodup := by
    simpa [List.map_map, Function.comp] using hnd
  have hpred : ((fun v : ImageRecord => v.id == i) ∘
      fun p : String × String => (⟨p.1, p.2⟩ : ImageRecord)) =
        fun p : String × String => p.1 == i := by
    funext p; rfl
  rw [hfold, findBy_foldl_putBy ImageRecord.id _ hmapnd, List.find?_map, hpred]
  cases hf : ps.find? (fun p => p.1 == i) <;> simp [hf]

/-- A filterMap whose entries carry their input as key maps a duplicate-free
id list to a duplicate-free key list. -/
theorem nodup_keys_of_filterMap (f : String → Option (String × String))
    (hf : ∀ i p, f i = some p → p.1 = i) (l : List String) (hl : l.Nodup) :
    ((l.filterMap f).map Prod.fst).Nodup := by
  induction l with
  | nil => simp
  | cons a t ih =>
    have hnd := List.nodup_cons.mp hl
    have iht := ih hnd.2
    cases hfa : f a with
    | none => simpa [List.filterMap_cons, hfa] using iht
    | some p =>
      simp only [List.filterMap_cons, hfa, List.map_cons]
      refine List.nodup_cons.mpr ⟨?_, iht⟩
      intro hmem
      rcases List.mem_map.mp hmem with ⟨pr, hpr, hfst⟩
      rcases List.mem_filterMap.mp hpr with ⟨j, hj, hfj⟩
      have hj1 : pr.1 = j := hf j pr hfj
      have hpa : p.1 = a := hf a p hfa
      have hja : j = a := by rw [← hj1, hfst]; exact hpa
      exact hnd.1 (hja ▸ hj)

/-- The entry built for a referenced id carries that id as its key. -/
theorem exportImageEntry_key (s : Store) (i : String) (p : String × String)
    (h : exportImageEntry s i = some p) : p.1 = i := by
  cases hg : imageDB_get s i with
  | none => simp [exportImageEntry, hg] at h
  | some d =>
    by_cases hd : d = ""
    · simp [exportImageEntry, hg, hd] at h
    · have hp : p = (i, d) := by simpa [exportImageEntry, hg, hd] using h.symm
      rw [hp]

/-- The keys of the exported image map are pairwise distinct. -/
theorem export_images_keys_nodup (s : Store) (now : Nat) :
    ((dataExport_exportAll s now).images.map Prod.fst).Nodup := by
  simpa [dataExport_exportAll] using
    nodup_keys_of_filterMap (exportImageEntry s) (exportImageEntry_key s)
      (collectImageIds s) (List.nodup_dedup _)

/-- Claim C1: importing the exported document in overwrite mode into a fresh
empty store raises no error and reproduces, collection by collection and id
by id, exactly the records the export read: the four entity collections are
lookup equivalent to the original store, and the images collection is lookup
equivalent to the image map of the exported document. -/
theorem C1_roundtrip (s : Store) (now : Nat) (h : WF s) :
    (dataExport_importAll (rawOfExport (dataExport_exportAll s now))
        ImportMode.overwrite emptyStore).2 = none ∧
      (∀ i, findBy Novel.id
          (dataExport_importAll (rawOfExport (dataExport_exportAll s now))
            ImportMode.overwrite emptyStore).1.novels i =
        findBy Novel.id s.novels i) ∧
      (∀ i, findBy Character.id
          (dataExport_importAll (rawOfExport (dataExport_exportAll s now))
            ImportMode.overwrite emptyStore).1.characters i =
        findBy Character.id s.characters i) ∧
      (∀ i, findBy Place.id
          (dataExport_importAll (rawOfExport (dataExport_exportAll s now))
            ImportMode.overwrite emptyStore).1.places i =
        findBy Place.id s.places i) ∧
      (∀ i, findBy Note.id
          (dataExport_importAll (rawOfExport (dataExport_exportAll s now))
            ImportMode.overwrite emptyStore).1.notes i =
        findBy Note.id s.notes i) ∧
      ∀ i, findBy ImageRecord.id
          (dataExport_importAll (rawOfExport (dataExport_exportAll s now))
            ImportMode.overwrite emptyStore).1.images i =
        ((dataExport_exportAll s now).images.find? (fun p => p.1 == i)).map
          (fun p => (⟨p.1, p.2⟩ : ImageRecord)) := by
  obtain ⟨hn, hc, hp, hq, hi⟩ := h
  refine ⟨rfl, ?_, ?_, ?_, ?_, ?_⟩
  · intro i
    exact findBy_foldl_putBy_fresh Novel.id s.novels hn i
  · intro i
    exact findBy_foldl_putBy_fresh Character.id s.characters hc i
  · intro i
    exact findBy_foldl_putBy_fresh Place.id s.places hp i
  · intro i
    exact findBy_foldl_putBy_fresh Note.id s.notes hq i
  · intro i
    have hres : (dataExport_importAll (rawOfExport (dataExport_exportAll s now))
        ImportMode.overwrite emptyStore).1.images =
        (dataExport_exportAll s now).images.foldl
          (fun acc p => putBy ImageRecord.id acc ⟨p.1, p.2⟩) [] := rfl
    rw [hres, findBy_foldl_putBy_pairs _ (export_images_keys_nodup s now)]
    cases hf : (dataExport_exportAll s now).images.find? (fun p => p.1 == i) <;>
      simp [findBy, hf]

/-- Witness for C1: the novels component of the round-trip at a concrete
populated store and id. -/
theorem C1_roundtrip_witness :
    findBy Novel.id
        (dataExport_importAll (rawOfExport (dataExport_exportAll sampleStore 7))
          ImportMode.overwrite emptyStore).1.novels "n1" =
      findBy Novel.id sampleStore.novels "n1" :=
  (C1_roundtrip sampleStore 7 (by decide)).2.1 "n1"

/-! ### Claim C7 — merge mode is non-destructive -/

/-- Claim C7: importAll in merge mode skips the clear step, so for a valid
document with pairwise-distinct ids per collection the call succeeds, every
id that occurs in the document resolves to the document record (collisions
replaced), every other id resolves to whatever the pre-existing store held,
and no pre-existing record of any of the five collections is removed. -/
theorem C7_merge_nondestructive (d : ExportData) (s : Store)
    (hn : (d.novels.map Novel.id).Nodup)
    (hc : (d.characters.map Character.id).Nodup)
    (hp : (d.places.map Place.id).Nodup)
    (hq : (d.notes.map Note.id).Nodup)
    (hi : (d.images.map Prod.fst).Nodup) :
    (dataExport_importAll (rawOfExport d) ImportMode.merge s).2 = none ∧
      (∀ i, findBy Novel.id
          (dataExport_importAll (rawOfExport d) ImportMode.merge s).1.novels i =
        match d.novels.find? (fun v => v.id == i) with
        | some v => some v
        | none => findBy Novel.id s.novels i) ∧
      (∀ i, findBy Character.id
          (dataExport_importAll (rawOfExport d) ImportMode.merge s).1.characters i =
        match d.characters.find? (fun v => v.id == i) with
        | some v => some v
        | none => findBy Character.id s.characters i) ∧
      (∀ i, findBy Place.id
          (dataExport_importAll (rawOfExport d) ImportMode.merge s).1.places i =
        match d.places.find? (fun v => v.id == i) with
        | some v => some v
        | none => findBy Place.id s.places i) ∧
      (∀ i, findBy Note.id
          (dataExport_importAll (rawOfExport d) ImportMode.merge s).1.notes i =
        match d.notes.find? (fun v => v.id == i) with
        | some v => some v
        | none => findBy Note.id s.notes i) ∧
      (∀ i, findBy ImageRecord.id
          (dataExport_importAll (rawOfExport d) ImportMode.merge s).1.images i =
        match d.images.find? (fun p => p.1 == i) with
        | some p => some ⟨p.1, p.2⟩
        | none => findBy ImageRecord.id s.images i) ∧
      (∀ i, (findBy Novel.id s.novels i).isSome →
        (findBy Novel.id
          (dataExport_importAll (rawOfExport d) ImportMode.merge s).1.novels i).isSome) ∧
      (∀ i, (findBy Character.id s.characters i).isSome →
        (findBy Character.id
          (dataExport_importAll (rawOfExport d) ImportMode.merge s).1.characters i).isSome) ∧
      (∀ i, (findBy Place.id s.places i).isSome →
        (findBy Place.id
          (dataExport_importAll (rawOfExport d) ImportMode.merge s).1.places i).isSome) ∧
      (∀ i, (findBy Note.id s.notes i).isSome →
        (findBy Note.id
          (dataExport_importAll (rawOfExport d) ImportMode.merge s).1.notes i).isSome) ∧
      ∀ i, (findBy ImageRecord.id s.images i).isSome →
        (findBy ImageRecord.id
          (dataExport_importAll (rawOfExport d) ImportMode.merge s).1.images i).isSome := by
  have bn : (dataExport_importAll (rawOfExport d) ImportMode.merge s).1.novels =
      d.novels.foldl (putBy Novel.id) s.novels := rfl
  have bc : (dataExport_importAll (rawOfExport d) ImportMode.merge s).1.characters =
      d.characters.foldl (putBy Character.id) s.characters := rfl
  have bp : (dataExport_importAll (rawOfExport d) ImportMode.merge s).1.places =
      d.places.foldl (putBy Place.id) s.places := rfl
  have bq : (dataExport_importAll (rawOfExport d) ImportMode.merge s).1.notes =
      d.notes.foldl (putBy Note.id) s.notes := rfl
  have bi : (dataExport_importAll (rawOfExport d) ImportMode.merge s).1.images =
      d.images.foldl (fun acc p => putBy ImageRecord.id acc ⟨p.1, p.2⟩) s.images := rfl
  have en : ∀ i, findBy Novel.id
      (dataExport_importAll (rawOfExport d) ImportMode.merge s).1.novels i =
      match d.novels.find? (fun v => v.id == i) with
      | some v => some v
      | none => findBy Novel.id s.novels i := by
    intro i
    rw [bn, findBy_foldl_putBy Novel.id d.novels hn]
    cases hf : d.novels.find? (fun v => v.id == i) <;> rfl
  have ec : ∀ i, findBy Character.id
      (dataExport_importAll (rawOfExport d) ImportMode.merge s).1.characters i =
      match d.characters.find? (fun v => v.id == i) with
      | some v => some v
      | none => findBy Character.id s.characters i := by
    intro i
    rw [bc, findBy_foldl_putBy Character.id d.characters hc]
    cases hf : d.characters.find? (fun v => v.id == i) <;> rfl
  have ep : ∀ i, findBy Place.id
      (dataExport_importAll (rawOfExport d) ImportMode.merge s).1.places i =
      match d.places.find? (fun v => v.id == i) with
      | some v => some v
      | none => findBy Place.id s.places i := by
    intro i
    rw [bp, findBy_foldl_putBy Place.id d.places hp]
    cases hf : d.places.find? (fun v => v.id == i) <;> rfl
  have eq : ∀ i, findBy Note.id
      (dataExport_importAll (rawOfExport d) ImportMode.merge s).1.notes i =
      match d.notes.find? (fun v => v.id == i) with
      | some v => some v
      | none => findBy Note.id s.notes i := by
    intro i
    rw [bq, findBy_foldl_putBy Note.id d.notes hq]
    cases hf : d.notes.find? (fun v => v.id == i) <;> rfl
  have ei : ∀ i, findBy ImageRecord.id
      (dataExport_importAll (rawOfExport d) ImportMode.merge s).1.images i =
      match d.images.find? (fun p => p.1 == i) with
      | some p => some ⟨p.1, p.2⟩
      | none => findBy ImageRecord.id s.images i := by
    intro i
    rw [bi, findBy_foldl_putBy_pairs d.images hi]
  refine ⟨rfl, en, ec, ep, eq, ei, ?_, ?_, ?_, ?_, ?_⟩
  · intro i hs
    rw [en i]
    cases hf : d.novels.find? (fun v => v.id == i) <;> simp [hs]
  · intro i hs
    rw [ec i]
    cases hf : d.characters.find? (fun v => v.id == i) <;> simp [hs]
  · intro i hs
    rw [ep i]
    cases hf : d.places.find? (fun v => v.id == i) <;> simp [hs]
  · intro i hs
    rw [eq i]
    cases hf : d.notes.find? (fun v => v.id == i) <;> simp [hs]
  · intro i hs
    rw [ei i]
    cases hf : d.images.find? (fun p => p.1 == i) <;> simp [hs]

/-- Witness for C7: at a concrete pre-existing store and document, the
colliding id resolves to the document record and the untouched pre-existing
id survives. -/
theorem C7_merge_nondestructive_witness :
    findBy Novel.id
        (dataExport_importAll (rawOfExport mergeDoc) ImportMode.merge
          mergePreStore).1.novels "a" = some (mkNovel "a" none 9) ∧
      (findBy Novel.id
        (dataExport_importAll (rawOfExport mergeDoc) ImportMode.merge
          mergePreStore).1.novels "c").isSome := by
  have h := C7_merge_nondestructive mergeDoc mergePreStore (by decide) (by decide)
    (by decide) (by decide) (by decide)
  exact ⟨(h.2.1 "a").trans (by decide), h.2.2.2.2.2.2.1 "c" (by decide)⟩

/-! ### Claim C3 — cascading delete -/

/-- Claim C3 counterexample: in the engine-call trace of novelDB.delete the
three dependent-record fetches occur before the transaction is opened, not
within it. -/
theorem C3_counterexample :
    fetchesWithinTx (novelDB_delete_trace sampleStore "n1") = false := by
  decide

/-- Claim C3 (amended): after novelDB.delete, the novel, every dependent
character, place and note, and every image id listed by those characters and
places are absent; all the deletions are issued inside the single readwrite
transaction, but the dependents are fetched before the transaction is
opened. -/
theorem C3_cascading_delete (s : Store) (id : String) :
    findBy Novel.id (novelDB_delete s id).novels id = none ∧
      (∀ ch ∈ byNovel Character.novelId s.characters id,
        findBy Character.id (novelDB_delete s id).characters ch.id = none) ∧
      (∀ pl ∈ byNovel Place.novelId s.places id,
        findBy Place.id (novelDB_delete s id).places pl.id = none) ∧
      (∀ nt ∈ byNovel Note.novelId s.notes id,
        findBy Note.id (novelDB_delete s id).notes nt.id = none) ∧
      (∀ ch ∈ byNovel Character.novelId s.characters id, ∀ g ∈ ch.images,
        findBy ImageRecord.id (novelDB_delete s id).images g = none) ∧
      (∀ pl ∈ byNovel Place.novelId s.places id, ∀ g ∈ pl.images,
        findBy ImageRecord.id (novelDB_delete s id).images g = none) ∧
      novelDB_delete_trace s id =
        novelDeleteFetchOps id ++
          DBOp.txBegin ["novels", "characters", "places", "notes", "images"] ::
            (novelDeleteDeleteOps s id ++ [DBOp.txCommit]) ∧
      (∀ op ∈ novelDeleteFetchOps id, isFetch op = true) ∧
      ∀ op ∈ novelDeleteDeleteOps s id, isTxDelete op = true := by
  have hnovels : (novelDB_delete s id).novels =
      deleteBy Novel.id s.novels id := by
    show (deleteBy Novel.id _ id) = _
    rw [(notePhase_frame _ _).1, (placePhase_frame _ _).1, (charPhase_frame _ _).1]
  have hchars : (novelDB_delete s id).characters =
      (byNovel Character.novelId s.characters id).foldl
        (fun l ch => deleteBy Character.id l ch.id) s.characters := by
    show ((byNovel Note.novelId s.notes id).foldl novelDeleteNoteStep _).characters = _
    rw [(notePhase_frame _ _).2.1, (placePhase_frame _ _).2.1, charPhase_characters]
  have hplaces : (novelDB_delete s id).places =
      (byNovel Place.novelId s.places id).foldl
        (fun l pl => deleteBy Place.id l pl.id) s.places := by
    show ((byNovel Note.novelId s.notes id).foldl novelDeleteNoteStep _).places = _
    rw [(notePhase_frame _ _).2.2.1, placePhase_places, (charPhase_frame _ _).2.1]
  have hnotes : (novelDB_delete s id).notes =
      (byNovel Note.novelId s.notes id).foldl
        (fun l nt => deleteBy Note.id l nt.id) s.notes := by
    show ((byNovel Note.novelId s.notes id).foldl novelDeleteNoteStep _).notes = _
    rw [notePhase_notes, (placePhase_frame _ _).2.2, (charPhase_frame _ _).2.2]
  have himages : (novelDB_delete s id).images =
      ((byNovel Place.novelId s.places id).flatMap Place.images).foldl
        (fun im g => deleteBy ImageRecord.id im g)
        (((byNovel Character.novelId s.characters id).flatMap Character.images).foldl
          (fun im g => deleteBy ImageRecord.id im g) s.images) := by
    show ((byNovel Note.novelId s.notes id).foldl novelDeleteNoteStep _).images = _
    rw [(notePhase_frame _ _).2.2.2, placePhase_images, charPhase_images]
  refine ⟨?_, ?_, ?_, ?_, ?_, ?_, rfl, ?_, ?_⟩
  · rw [hnovels, findBy_deleteBy, if_pos rfl]
  · intro ch hch
    rw [hchars, findBy_foldl_deleteBy]
    rw [if_pos (List.mem_map_of_mem Character.id hch)]
  · intro pl hpl
    rw [hplaces, findBy_foldl_deleteBy]
    rw [if_pos (List.mem_map_of_mem Place.id hpl)]
  · intro nt hnt
    rw [hnotes, findBy_foldl_deleteBy]
    rw [if_pos (List.mem_map_of_mem Note.id hnt)]
  · intro ch hch g hg
    have hflat : g ∈ (byNovel Character.novelId s.characters id).flatMap Character.images :=
      List.mem_flatMap.mpr ⟨ch, hch, hg⟩
    rw [himages, findBy_foldl_deleteBy]
    by_cases hpm : g ∈ ((byNovel Place.novelId s.places id).flatMap Place.images).map
        (fun g => g)
    · rw [if_pos hpm]
    · rw [if_neg hpm, findBy_foldl_deleteBy]
      rw [if_pos (by simpa [List.map_id'] using hflat)]
  · intro pl hpl g hg
    have hflat : g ∈ (byNovel Place.novelId s.places id).flatMap Place.images :=
      List.mem_flatMap.mpr ⟨pl, hpl, hg⟩
    rw [himages, findBy_foldl_deleteBy]
    rw [if_pos (by simpa [List.map_id'] using hflat)]
  · intro op hop
    simp only [novelDeleteFetchOps, List.mem_cons, List.not_mem_nil, or_false] at hop
    rcases hop with h | h | h <;> subst h <;> rfl
  · intro op hop
    simp only [novelDeleteDeleteOps, List.mem_append, List.mem_flatMap, List.mem_map,
      List.mem_cons, List.not_mem_nil, or_false] at hop
    rcases hop with ((⟨ch, _, hop⟩ | ⟨pl, _, hop⟩) | ⟨nt, _, hop⟩) | hop
    · rcases hop with h | ⟨g, _, h⟩ <;> subst h <;> rfl
    · rcases hop with h | ⟨g, _, h⟩ <;> subst h <;> rfl
    · subst hop; rfl
    · subst hop; rfl

/-- Witness for C3: in the populated store, deleting novel n1 removes its
dependent character c1. -/
theorem C3_cascading_delete_witness :
    findBy Character.id (novelDB_delete sampleStore "n1").characters "c1" = none := by
  have h := (C3_cascading_delete sampleStore "n1").2.1
    (mkCharacter "c1" "n1" ["i1"] ["c2"] 1 3) (by decide)
  exact h

/-! ### Claim C4 — cross-reference cleanup -/

/-- Claim C4: for same-novel characters A and B with A linking B, after
characterDB.delete of B the record B is gone, the id of B appears in no
same-novel linkedCharacterIds list any more, and A has been rewritten with
the link filtered out and updatedAt refreshed to the cleanup time. -/
theorem C4_crossref_cleanup (s : Store) (bid : String) (B A : Character)
    (now : Nat) (hWF : (s.characters.map Character.id).Nodup)
    (hB : findBy Character.id s.characters bid = some B)
    (hA : findBy Character.id s.characters A.id = some A)
    (hAB : A.id ≠ bid)
    (hsame : A.novelId = B.novelId)
    (hlink : bid ∈ A.linkedCharacterIds) :
    findBy Character.id (characterDB_delete s bid now).characters bid = none ∧
      findBy Character.id (characterDB_delete s bid now).characters A.id =
        some (cleanupModified bid now A) ∧
      ∀ i ch,
        findBy Character.id (characterDB_delete s bid now).characters i = some ch →
        ch.novelId = B.novelId → bid ∉ ch.linkedCharacterIds := by
  have hres : (characterDB_delete s bid now).characters =
      (byNovel Character.novelId (deleteBy Character.id s.characters bid)
        B.novelId).foldl (cleanupStep bid now)
        (deleteBy Character.id s.characters bid) := by
    simp only [characterDB_delete, hB]
  have hnd1 : ((deleteBy Character.id s.characters bid).map Character.id).Nodup :=
    nodup_map_key_filter Character.id _ _ hWF
  have hndA : ((byNovel Character.novelId (deleteBy Character.id s.characters bid)
      B.novelId).map Character.id).Nodup :=
    nodup_map_key_filter Character.id _ _ hnd1
  have hmemA1 : A ∈ deleteBy Character.id s.characters bid := by
    refine List.mem_filter.mpr ⟨(findBy_mem Character.id _ _ _ hA).1, ?_⟩
    simp [hAB]
  have hmemAC : A ∈ byNovel Character.novelId
      (deleteBy Character.id s.characters bid) B.novelId :=
    (mem_byNovel _ _ _ _).mpr ⟨hmemA1, hsame⟩
  refine ⟨?_, ?_, ?_⟩
  · rw [hres, findBy_foldl_cleanup bid now _ hndA]
    have hfnone : (byNovel Character.novelId (deleteBy Character.id s.characters bid)
        B.novelId).find? (fun ch => ch.id == bid) = none := by
      rw [List.find?_eq_none]
      intro x hx
      have hx1 : x ∈ deleteBy Character.id s.characters bid :=
        (List.mem_filter.mp hx).1
      have := (List.mem_filter.mp hx1).2
      simpa using this
    rw [hfnone, findBy_deleteBy, if_pos rfl]
  · rw [hres, findBy_foldl_cleanup bid now _ hndA]
    have hfA : (byNovel Character.novelId (deleteBy Character.id s.characters bid)
        B.novelId).find? (fun ch => ch.id == A.id) = some A :=
      findBy_eq_of_mem_nodup Character.id _ hndA A hmemAC
    rw [hfA]
    simp [hlink]
  · intro i ch hch hnov
    rw [hres, findBy_foldl_cleanup bid now _ hndA] at hch
    cases hf : (byNovel Character.novelId (deleteBy Character.id s.characters bid)
        B.novelId).find? (fun c => c.id == i) with
    | some c0 =>
      rw [hf] at hch
      by_cases hl : bid ∈ c0.linkedCharacterIds
      · simp only [hl, if_true] at hch
        have hch' : cleanupModified bid now c0 = ch := by
          injection hch
        subst hch'
        intro hcontra
        have := (List.mem_filter.mp hcontra).2
        simp at this
      · simp only [hl, if_false] at hch
        have hc0mem : c0 ∈ byNovel Character.novelId
            (deleteBy Character.id s.characters bid) B.novelId :=
          List.mem_of_find?_eq_some hf
        have hc0id : c0.id = i := by
          have := List.find?_some hf
          simpa using this
        have hc01 : c0 ∈ deleteBy Character.id s.characters bid :=
          (List.mem_filter.mp hc0mem).1
        have hfc0 : findBy Character.id (deleteBy Character.id s.characters bid)
            c0.id = some c0 :=
          findBy_eq_of_mem_nodup Character.id _ hnd1 c0 hc01
        rw [hc0id] at hfc0
        rw [hfc0] at hch
        have : c0 = ch := by injection hch
        exact this ▸ hl
    | none =>
      rw [hf] at hch
      have hmem : ch ∈ deleteBy Character.id s.characters bid :=
        (findBy_mem Character.id _ _ _ hch).1
      have hid : ch.id = i := (findBy_mem Character.id _ _ _ hch).2
      have hmemC : ch ∈ byNovel Character.novelId
          (deleteBy Character.id s.characters bid) B.novelId :=
        (mem_byNovel _ _ _ _).mpr ⟨hmem, hnov⟩
      have := List.find?_eq_none.mp hf ch hmemC
      simp [hid] at this

/-- Witness for C4: deleting c1 in the populated store rewrites the linked
character c2 with the reference removed and updatedAt refreshed. -/
theorem C4_crossref_cleanup_witness :
    findBy Character.id (characterDB_delete sampleStore "c1" 9).characters
        (mkCharacter "c2" "n1" [] ["c1"] 1 4).id =
      some (cleanupModified "c1" 9 (mkCharacter "c2" "n1" [] ["c1"] 1 4)) := by
  have h := C4_crossref_cleanup sampleStore "c1"
    (mkCharacter "c1" "n1" ["i1"] ["c2"] 1 3)
    (mkCharacter "c2" "n1" [] ["c1"] 1 4) 9
    (by decide) (by decide) (by decide) (by decide) rfl (by decide)
  exact h.2.1

/-! ### Claim C9 — the cover image survives novel deletion -/

/-- Claim C9: novelDB.delete removes the novel but deletes only the images
listed by the dependent characters and places, so an image referenced only
by the novel coverImage field keeps its record in the images collection. -/
theorem C9_cover_image_survives (s : Store) (nid cid : String) (n : Novel)
    (hn : findBy Novel.id s.novels nid = some n)
    (hcov : n.coverImage = some cid)
    (hc : cid ∉ (byNovel Character.novelId s.characters nid).flatMap Character.images)
    (hp : cid ∉ (byNovel Place.novelId s.places nid).flatMap Place.images) :
    findBy Novel.id (novelDB_delete s nid).novels nid = none ∧
      findBy ImageRecord.id (novelDB_delete s nid).images cid =
        findBy ImageRecord.id s.images cid := by
  have hnovels : (novelDB_delete s nid).novels = deleteBy Novel.id s.novels nid := by
    show (deleteBy Novel.id _ nid) = _
    rw [(notePhase_frame _ _).1, (placePhase_frame _ _).1, (charPhase_frame _ _).1]
  have himages : (novelDB_delete s nid).images =
      ((byNovel Place.novelId s.places nid).flatMap Place.images).foldl
        (fun im g => deleteBy ImageRecord.id im g)
        (((byNovel Character.novelId s.characters nid).flatMap Character.images).foldl
          (fun im g => deleteBy ImageRecord.id im g) s.images) := by
    show ((byNovel Note.novelId s.notes nid).foldl novelDeleteNoteStep _).images = _
    rw [(notePhase_frame _ _).2.2.2, placePhase_images, charPhase_images]
  constructor
  · rw [hnovels, findBy_deleteBy, if_pos rfl]
  · rw [himages, findBy_foldl_deleteBy]
    rw [if_neg (by simpa [List.map_id'] using hp), findBy_foldl_deleteBy]
    rw [if_neg (by simpa [List.map_id'] using hc)]

/-- Witness for C9: deleting novel n1 keeps the record of its cover image i0
(referenced by no dependent) while the novel itself is gone. -/
theorem C9_cover_image_survives_witness :
    findBy ImageRecord.id (novelDB_delete sampleStore "n1").images "i0" =
      findBy ImageRecord.id sampleStore.images "i0" :=
  (C9_cover_image_survives sampleStore "n1" "i0" (mkNovel "n1" (some "i0") 1)
    (by decide) rfl (by decide) (by decide)).2

/-! ### Claim C10 — cleanup touches only same-novel characters -/

/-- Claim C10: characterDB.delete leaves the places and notes collections
exactly as they were (so their linkedCharacterIds may keep dangling
entries), and every character other than the deleted one that is in another
novel or does not link the deleted id keeps its record unchanged. -/
theorem C10_cleanup_frame (s : Store) (cid : String) (c : Character) (now : Nat)
    (hWF : (s.characters.map Character.id).Nodup)
    (hc : findBy Character.id s.characters cid = some c) :
    (characterDB_delete s cid now).places = s.places ∧
      (characterDB_delete s cid now).notes = s.notes ∧
      ∀ i ch, findBy Character.id s.characters i = some ch → i ≠ cid →
        (ch.novelId ≠ c.novelId ∨ cid ∉ ch.linkedCharacterIds) →
        findBy Character.id (characterDB_delete s cid now).characters i = some ch := by
  have hres : (characterDB_delete s cid now).characters =
      (byNovel Character.novelId (deleteBy Character.id s.characters cid)
        c.novelId).foldl (cleanupStep cid now)
        (deleteBy Character.id s.characters cid) := by
    simp only [characterDB_delete, hc]
  have hplaces : (characterDB_delete s cid now).places = s.places := by
    simp only [characterDB_delete, hc]
  have hnotes : (characterDB_delete s cid now).notes = s.notes := by
    simp only [characterDB_delete, hc]
  have hnd1 : ((deleteBy Character.id s.characters cid).map Character.id).Nodup :=
    nodup_map_key_filter Character.id _ _ hWF
  have hndA : ((byNovel Character.novelId (deleteBy Character.id s.characters cid)
      c.novelId).map Character.id).Nodup :=
    nodup_map_key_filter Character.id _ _ hnd1
  refine ⟨hplaces, hnotes, ?_⟩
  intro i ch hch hic hside
  have hch1 : findBy Character.id (deleteBy Character.id s.characters cid) i =
      some ch := by
    rw [findBy_deleteBy, if_neg hic]
    exact hch
  rw [hres, findBy_foldl_cleanup cid now _ hndA]
  cases hf : (byNovel Character.novelId (deleteBy Character.id s.characters cid)
      c.novelId).find? (fun w => w.id == i) with
  | none => exact hch1
  | some c0 =>
    have hc0mem : c0 ∈ byNovel Character.novelId
        (deleteBy Character.id s.characters cid) c.novelId :=
      List.mem_of_find?_eq_some hf
    have hc0id : c0.id = i := by
      have := List.find?_some hf
      simpa using this
    have hc0nov : c0.novelId = c.novelId :=
      ((mem_byNovel Character.novelId _ c.novelId c0).mp hc0mem).2
    have hc01 : c0 ∈ deleteBy Character.id s.characters cid :=
      (List.mem_filter.mp hc0mem).1
    have hfc0 : findBy Character.id (deleteBy Character.id s.characters cid)
        c0.id = some c0 :=
      findBy_eq_of_mem_nodup Character.id _ hnd1 c0 hc01
    rw [hc0id] at hfc0
    have hc0ch : c0 = ch := by
      rw [hfc0] at hch1
      injection hch1
    rcases hside with hside | hside
    · exact absurd (hc0ch ▸ hc0nov) hside
    · have hl : cid ∉ c0.linkedCharacterIds := hc0ch ▸ hside
      simp only [hl, if_false]
      exact hch1

/-- Witness for C10: deleting c1 leaves the other-novel character c3 with
its dangling link to c1 intact, and the places collection untouched. -/
theorem C10_cleanup_frame_witness :
    findBy Character.id (characterDB_delete sampleStore "c1" 9).characters "c3" =
        some (mkCharacter "c3" "n2" [] ["c1"] 1 5) ∧
      (characterDB_delete sampleStore "c1" 9).places = sampleStore.places := by
  have h := C10_cleanup_frame sampleStore "c1"
    (mkCharacter "c1" "n1" ["i1"] ["c2"] 1 3) 9 (by decide) (by decide)
  exact ⟨h.2.2 "c3" (mkCharacter "c3" "n2" [] ["c1"] 1 5) (by decide) (by decide)
    (Or.inl (by decide)), h.1⟩
